import Mathlib

/-!
Shallow embedding of the trade-up computation core of `backend.py`
(class `Skin` and class `Backend`), together with theorems checking the
specification's claims about it.

Modelling conventions:
* Python floats are modelled as exact rationals (`ℚ`).
* A raised exception is modelled as the `Except.error` case; the distinct
  `ValueError`s raised by `get_tradeup_outcomes`'s validation are the
  constructors `mixedRarity` and `wrongCount`, and the error escaping from
  `Backend.next_rarity` (a failed list lookup) is `ladderError`.
* The `pandas` item-metadata table is a list of records (`Catalog`), in
  source row order; `DataFrame` filtering is `List.filter`, which keeps
  row order.
* Python's `dict` (insertion-ordered, as `defaultdict(float)` is) is an
  association list where updating an existing key rewrites it in place and
  a new key is appended at the end.
* Python's `sorted` (a stable sort) is `List.mergeSort`, which is stable.
* Object identity of `Skin` instances is modelled by an allocation tag:
  constructing a `Skin` draws the next tag from an explicit backend state.
-/

namespace CSBackend

/-- One row of the merged item-metadata table: the fields of `Skin` that the
trade-up computation reads (`id`, `name`, `rarity`, `collections`,
`min_float`, `max_float`). -/
structure SkinRec where
  id : Nat
  name : String
  rarity : String
  collection : String
  min_float : ℚ
  max_float : ℚ
  deriving DecidableEq, Repr

/-- The merged item-metadata table, in source row order. -/
abbrev Catalog := List SkinRec

/-- The `rarity_order` list of `Backend.next_rarity`. -/
def rarity_order : List String :=
  ["Consumer Grade",
   "Industrial Grade",
   "Mil-Spec Grade",
   "Restricted",
   "Classified",
   "Covert",
   "Extraordinary"]

/-- `Backend.next_rarity`: `rarity_order[rarity_order.index(rarity) + 1]`.
`none` models the exception escaping: `ValueError` from `.index` when the
rarity is not in the list (e.g. "Contraband"), `IndexError` from the `+ 1`
lookup when it is the last entry ("Extraordinary"). -/
def next_rarity (r : String) : Option String :=
  match rarity_order.indexOf? r with
  | none => none
  | some i => rarity_order[i + 1]?

/-- The errors that can escape `Backend.get_tradeup_outcomes`:
the two validation `ValueError`s and the error raised inside
`Backend.next_rarity` during candidate enumeration. -/
inductive TradeErr where
  | mixedRarity
  | wrongCount
  | ladderError
  deriving DecidableEq, Repr

/-- `Skin.get_tradeups`: first advance the rarity (which can raise), then
return `[]` for an empty collection, else all catalog rows at the next
rarity in the same collection, in row order. -/
def get_tradeups (catalog : Catalog) (s : SkinRec) : Except TradeErr (List SkinRec) :=
  match next_rarity s.rarity with
  | none => .error .ladderError
  | some nr =>
    if s.collection = "" then .ok []
    else .ok (catalog.filter (fun t => t.rarity == nr && t.collection == s.collection))

/-- `probabilities[key] += p` on an insertion-ordered dict: rewrite the
first entry with this key in place, or append a fresh entry at the end. -/
def addProb (l : List (Nat × ℚ)) (k : Nat) (p : ℚ) : List (Nat × ℚ) :=
  match l with
  | [] => [(k, p)]
  | (k', p') :: rest =>
    if k' = k then (k', p' + p) :: rest else (k', p') :: addProb rest k p

/-- The accumulation loop of `Backend.get_tradeup_outcomes`: for each input
skin, enumerate its possible outputs; skip it when there are none; else add
`(1/n) * (1/M)` to each output's entry. An error escaping from
`get_tradeups` aborts the whole loop. -/
def accumulate (catalog : Catalog) (n : Nat) :
    List SkinRec → List (Nat × ℚ) → Except TradeErr (List (Nat × ℚ))
  | [], acc => .ok acc
  | s :: rest, acc =>
    match get_tradeups catalog s with
    | .error e => .error e
    | .ok [] => accumulate catalog n rest acc
    | .ok (o :: os) =>
      let outs := o :: os
      let contrib := (1 / (n : ℚ)) * (1 / (outs.length : ℚ))
      accumulate catalog n rest (outs.foldl (fun a t => addProb a t.id contrib) acc)

/-- `Backend.get_tradeup_outcomes`: empty input returns `[]`; then the two
validations (mixed rarity, then count: 5 for Covert else 10); then the
accumulation loop; finally a stable sort by probability, descending. -/
def get_tradeup_outcomes (catalog : Catalog) (items : List SkinRec) :
    Except TradeErr (List (Nat × ℚ)) :=
  match items with
  | [] => .ok []
  | first :: _ =>
    if items.any (fun s => s.rarity != first.rarity) then .error .mixedRarity
    else
      let expected := if first.rarity = "Covert" then 5 else 10
      if items.length ≠ expected then .error .wrongCount
      else
        match accumulate catalog items.length items [] with
        | .error e => .error e
        | .ok acc => .ok (acc.mergeSort (fun a b => decide (b.2 ≤ a.2)))

/-- `Backend.calculate_output_float`: mean of the set input floats,
remapped linearly into the output skin's float range; `none` when no
input float is set. -/
def calculate_output_float (inputFloats : List (Option ℚ)) (min_f max_f : ℚ) :
    Option ℚ :=
  let set_floats := inputFloats.filterMap id
  if set_floats = [] then none
  else
    let f_bar := set_floats.sum / (set_floats.length : ℚ)
    some (min_f + f_bar * (max_f - min_f))

/-- The mutable backend state relevant to lookups: the `_skin_cache`
(item id to allocation tag of the cached `Skin` instance) and the next
fresh allocation tag. -/
structure BState where
  cache : List (Nat × Nat)
  nextTag : Nat
  deriving DecidableEq, Repr

/-- The lookup failure of `Skin.__init__` (`ValueError: no item with id`). -/
inductive LookupErr where
  | notFound
  deriving DecidableEq, Repr

/-- `Skin.__init__`: fails when no metadata row has this id, otherwise
allocates a fresh instance (a fresh tag). It does not touch the cache. -/
def skin_init (catalog : Catalog) (st : BState) (item_id : Nat) :
    Except LookupErr (Nat × BState) :=
  if (catalog.filter (fun r => r.id == item_id)) = [] then .error .notFound
  else .ok (st.nextTag, { st with nextTag := st.nextTag + 1 })

/-- `Backend.get_skin`: return the cached instance when present, else
construct one and cache it. -/
def get_skin (catalog : Catalog) (st : BState) (item_id : Nat) :
    Except LookupErr (Nat × BState) :=
  match st.cache.lookup item_id with
  | some tag => .ok (tag, st)
  | none =>
    match skin_init catalog st item_id with
    | .error e => .error e
    | .ok (tag, st') => .ok (tag, { st' with cache := st'.cache ++ [(item_id, tag)] })

/-- `Backend.get_skin_by_name`: exact-match filter on the name column;
returns `None` (here `.ok none`) when no row matches, else constructs a
fresh `Skin` from the first matching row's id, bypassing the cache. -/
def get_skin_by_name (catalog : Catalog) (st : BState) (name : String) :
    Except LookupErr (Option (Nat × BState)) :=
  match catalog.filter (fun r => r.name == name) with
  | [] => .ok none
  | r :: _ =>
    match skin_init catalog st r.id with
    | .error e => .error e
    | .ok p => .ok (some p)

/-- Iterated application of `next_rarity`, failing as soon as one step fails. -/
def iter_next : Nat → String → Option String
  | 0, r => some r
  | n + 1, r => (next_rarity r).bind (iter_next n)

/-- The probability the outcome dict assigns to output id `k` (0 when the
key is absent). -/
def lprob (l : List (Nat × ℚ)) (k : Nat) : ℚ := (l.lookup k).getD 0

/-- The keys of the outcome dict, in order. -/
def keysOf (l : List (Nat × ℚ)) : List Nat := l.map Prod.fst

/-- The sum of all probabilities in an outcome list. -/
def totalProb (l : List (Nat × ℚ)) : ℚ := (l.map Prod.snd).sum

/-- Whether an input item has at least one candidate output: its
`get_tradeups` list is nonempty. -/
def has_candidates (catalog : Catalog) (s : SkinRec) : Bool :=
  match get_tradeups catalog s with
  | .ok (_ :: _) => true
  | _ => false

/-- The per-input-slot contribution as the spec's claim words it, for
comparison with the code: each of the slot's candidate outputs receives
`(1 / N) * (1 / M)`, where `M` is the slot's candidate count, and a slot
without candidates contributes nothing; stated per output id `k` by
counting how often `k` occurs among the slot's candidates (exactly once
per candidate when catalog ids are distinct). -/
def spec_slot_contribution (catalog : Catalog) (n : Nat) (s : SkinRec) (k : Nat) : ℚ :=
  match get_tradeups catalog s with
  | .error _ => 0
  | .ok outs =>
    if outs = [] then 0
    else ((outs.countP (fun t => t.id == k)) : ℚ) *
      ((1 / (n : ℚ)) * (1 / (outs.length : ℚ)))

/-- A concrete Covert record, for the input-size scenarios. -/
def covRec : SkinRec := ⟨101, "Cov", "Covert", "Alpha", 0, 1⟩

/-- A concrete Classified record, for the input-size scenarios. -/
def clRec : SkinRec := ⟨102, "Cla", "Classified", "Alpha", 0, 1⟩

/-- A concrete Extraordinary record, for the terminal-rarity scenarios. -/
def exRec : SkinRec := ⟨103, "Exo", "Extraordinary", "Alpha", 0, 1⟩

/-- A concrete Contraband record, for the terminal-rarity scenarios. -/
def cbRec : SkinRec := ⟨104, "Ban", "Contraband", "Alpha", 0, 1⟩

/-- Collection "Alpha", Mil-Spec tier: three records. -/
def alphaMil1 : SkinRec := ⟨1, "A-M1", "Mil-Spec Grade", "Alpha", 0, 1⟩

/-- Second Mil-Spec record of collection "Alpha". -/
def alphaMil2 : SkinRec := ⟨2, "A-M2", "Mil-Spec Grade", "Alpha", 0, 1⟩

/-- Third Mil-Spec record of collection "Alpha". -/
def alphaMil3 : SkinRec := ⟨3, "A-M3", "Mil-Spec Grade", "Alpha", 0, 1⟩

/-- Collection "Alpha", Restricted tier: first of two records. -/
def alphaRes1 : SkinRec := ⟨4, "A-R1", "Restricted", "Alpha", 0, 1⟩

/-- Collection "Alpha", Restricted tier: second of two records. -/
def alphaRes2 : SkinRec := ⟨5, "A-R2", "Restricted", "Alpha", 0, 1⟩

/-- Collection "Beta": a Mil-Spec record with no next-tier sibling. -/
def betaMil : SkinRec := ⟨6, "B-M1", "Mil-Spec Grade", "Beta", 0, 1⟩

/-- A catalog with 3 Mil-Spec and 2 Restricted "Alpha" records and one
"Beta" Mil-Spec record with no Restricted sibling. -/
def catalogAB : Catalog :=
  [alphaMil1, alphaMil2, alphaMil3, alphaRes1, alphaRes2, betaMil]

/-- Collection "Gamma": a Mil-Spec record. -/
def gammaMil : SkinRec := ⟨7, "G-M1", "Mil-Spec Grade", "Gamma", 0, 1⟩

/-- Collection "Gamma", Restricted tier, id 9: listed in the catalog
before the sibling with the smaller id 8. -/
def gammaRes9 : SkinRec := ⟨9, "G-R9", "Restricted", "Gamma", 0, 1⟩

/-- Collection "Gamma", Restricted tier, id 8: listed after id 9. -/
def gammaRes8 : SkinRec := ⟨8, "G-R8", "Restricted", "Gamma", 0, 1⟩

/-- A catalog whose two Restricted "Gamma" records appear in descending
id order. -/
def catalogG : Catalog := [gammaMil, gammaRes9, gammaRes8]

/-- The backend state at process start: empty cache, first tag 0. -/
def st0 : BState := ⟨[], 0⟩

/-- Unfolding of `get_tradeups` when the rarity advance succeeds. -/
theorem get_tradeups_of_some (catalog : Catalog) (s : SkinRec) (nr : String)
    (hnr : next_rarity s.rarity = some nr) :
    get_tradeups catalog s =
      if s.collection = "" then .ok []
      else .ok (catalog.filter (fun t => t.rarity == nr && t.collection == s.collection)) := by
  unfold get_tradeups
  rw [hnr]

/-- When the item's rarity has a successor, `get_tradeups` cannot raise. -/
theorem get_tradeups_ok_of_isSome (catalog : Catalog) (s : SkinRec)
    (h : (next_rarity s.rarity).isSome) :
    ∃ outs, get_tradeups catalog s = .ok outs := by
  obtain ⟨nr, hnr⟩ := Option.isSome_iff_exists.mp h
  rw [get_tradeups_of_some catalog s nr hnr]
  by_cases hc : s.collection = ""
  · exact ⟨[], by rw [if_pos hc]⟩
  · exact ⟨_, by rw [if_neg hc]⟩

/-- When every input item's rarity has a successor, the accumulation loop
cannot raise. -/
theorem accumulate_isOk (catalog : Catalog) (n : Nat) (items : List SkinRec)
    (h : ∀ s ∈ items, (next_rarity s.rarity).isSome) (acc : List (Nat × ℚ)) :
    ∃ l, accumulate catalog n items acc = .ok l := by
  induction items generalizing acc with
  | nil => exact ⟨acc, rfl⟩
  | cons s rest ih =>
    have hrest : ∀ t ∈ rest, (next_rarity t.rarity).isSome :=
      fun t ht => h t (by simp [ht])
    obtain ⟨outs, hgt⟩ := get_tradeups_ok_of_isSome catalog s (h s (by simp))
    cases outs with
    | nil =>
      obtain ⟨l, hl⟩ := ih hrest acc
      exact ⟨l, by simp only [accumulate, hgt]; exact hl⟩
    | cons o os =>
      obtain ⟨l, hl⟩ := ih hrest ((o :: os).foldl
        (fun a t => addProb a t.id ((1 / (n : ℚ)) * (1 / ((o :: os).length : ℚ)))) acc)
      exact ⟨l, by simp only [accumulate, hgt]; exact hl⟩

/-- When the first input item's rarity has no successor, the accumulation
loop raises the ladder error at once. -/
theorem accumulate_ladderError (catalog : Catalog) (n : Nat) (s : SkinRec)
    (rest : List SkinRec) (acc : List (Nat × ℚ))
    (h : next_rarity s.rarity = none) :
    accumulate catalog n (s :: rest) acc = .error .ladderError := by
  have hgt : get_tradeups catalog s = .error .ladderError := by
    unfold get_tradeups
    rw [h]
  simp only [accumulate, hgt]

/-- Unfolding of `get_tradeup_outcomes` on a nonempty input list. -/
theorem get_tradeup_outcomes_cons (catalog : Catalog) (first : SkinRec)
    (rest : List SkinRec) :
    get_tradeup_outcomes catalog (first :: rest) =
      if (first :: rest).any (fun s => s.rarity != first.rarity) then
        .error .mixedRarity
      else if (first :: rest).length ≠ (if first.rarity = "Covert" then 5 else 10) then
        .error .wrongCount
      else
        match accumulate catalog (first :: rest).length (first :: rest) [] with
        | .error e => .error e
        | .ok acc => .ok (acc.mergeSort (fun a b => decide (b.2 ≤ a.2))) := rfl

/-- Mixed rarities raise the mixed-rarity `ValueError`. -/
theorem get_tradeup_outcomes_mixed (catalog : Catalog) (first : SkinRec)
    (rest : List SkinRec) (hmix : ∃ s ∈ first :: rest, s.rarity ≠ first.rarity) :
    get_tradeup_outcomes catalog (first :: rest) = .error .mixedRarity := by
  have hany : (first :: rest).any (fun s => s.rarity != first.rarity) = true := by
    simpa [List.any_eq_true, bne_iff_ne] using hmix
  rw [get_tradeup_outcomes_cons, if_pos hany]

/-- All one rarity: the `any` probe for a differing rarity is `false`. -/
theorem any_ne_rarity_false (first : SkinRec) (rest : List SkinRec)
    (hall : ∀ s ∈ first :: rest, s.rarity = first.rarity) :
    (first :: rest).any (fun s => s.rarity != first.rarity) = false := by
  simp only [List.any_eq_false, bne_iff_ne, ne_eq, Decidable.not_not]
  exact hall

/-- A uniform-rarity input of the wrong size raises the count `ValueError`. -/
theorem get_tradeup_outcomes_wrongCount (catalog : Catalog) (first : SkinRec)
    (rest : List SkinRec)
    (hall : ∀ s ∈ first :: rest, s.rarity = first.rarity)
    (hlen : (first :: rest).length ≠ (if first.rarity = "Covert" then 5 else 10)) :
    get_tradeup_outcomes catalog (first :: rest) = .error .wrongCount := by
  rw [get_tradeup_outcomes_cons, any_ne_rarity_false first rest hall]
  simp only [Bool.false_eq_true, if_false, if_pos hlen]

/-- A uniform-rarity input of the right size, whose rarity has a successor,
is accepted: validation passes and the loop cannot raise. -/
theorem get_tradeup_outcomes_ok (catalog : Catalog) (first : SkinRec)
    (rest : List SkinRec)
    (hall : ∀ s ∈ first :: rest, s.rarity = first.rarity)
    (hlen : (first :: rest).length = (if first.rarity = "Covert" then 5 else 10))
    (hsome : (next_rarity first.rarity).isSome) :
    ∃ l, get_tradeup_outcomes catalog (first :: rest) = .ok l := by
  obtain ⟨acc, hacc⟩ := accumulate_isOk catalog (first :: rest).length (first :: rest)
    (fun s hs => by rw [hall s hs]; exact hsome) []
  refine ⟨acc.mergeSort (fun a b => decide (b.2 ≤ a.2)), ?_⟩
  rw [get_tradeup_outcomes_cons, any_ne_rarity_false first rest hall]
  simp only [Bool.false_eq_true, if_false]
  rw [if_neg (not_ne_iff.mpr hlen), hacc]

/-- `List.lookup` on a cons cell, with the Boolean key test turned into a
propositional `if`. -/
theorem lookup_cons_if {β : Type} (a k : Nat) (b : β) (es : List (Nat × β)) :
    ((k, b) :: es).lookup a = if a = k then some b else es.lookup a := by
  rw [List.lookup_cons]
  by_cases h : a = k
  · simp [h]
  · have hb : (a == k) = false := by simpa using h
    rw [hb, if_neg h]

/-- `lprob` on a cons cell. -/
theorem lprob_cons (k₁ : Nat) (p₁ : ℚ) (tl : List (Nat × ℚ)) (k : Nat) :
    lprob ((k₁, p₁) :: tl) k = if k = k₁ then p₁ else lprob tl k := by
  unfold lprob
  rw [lookup_cons_if]
  by_cases h : k = k₁ <;> simp [h]

/-- `addProb` raises the stored probability of `k` by `p` and leaves every
other key's probability unchanged. -/
theorem lprob_addProb (l : List (Nat × ℚ)) (k k' : Nat) (p : ℚ) :
    lprob (addProb l k p) k' = lprob l k' + (if k' = k then p else 0) := by
  induction l with
  | nil =>
    by_cases h : k' = k <;>
      simp [addProb, lprob, lookup_cons_if, h]
  | cons hd tl ih =>
    obtain ⟨k₁, p₁⟩ := hd
    by_cases h1 : k₁ = k
    · subst h1
      by_cases h2 : k' = k₁ <;> simp [addProb, lprob_cons, h2]
    · by_cases h2 : k' = k₁
      · have hk : ¬(k' = k) := by rw [h2]; exact h1
        simp [addProb, if_neg h1, lprob_cons, h2, hk]
      · simp [addProb, if_neg h1, lprob_cons, h2, ih]

/-- The keys after `addProb`: unchanged when the key is present, else the
key is appended. -/
theorem keysOf_addProb (l : List (Nat × ℚ)) (k : Nat) (p : ℚ) :
    keysOf (addProb l k p) =
      if k ∈ keysOf l then keysOf l else keysOf l ++ [k] := by
  induction l with
  | nil => simp [addProb, keysOf]
  | cons hd tl ih =>
    obtain ⟨k₁, p₁⟩ := hd
    by_cases h1 : k₁ = k
    · subst h1
      simp [addProb, keysOf]
    · have hk : ¬(k = k₁) := fun hh => h1 hh.symm
      simp only [addProb, if_neg h1, keysOf, List.map_cons] at ih ⊢
      rw [ih]
      by_cases h2 : k ∈ tl.map Prod.fst
      · rw [if_pos h2, if_pos (by simp [List.mem_cons, h2])]
      · rw [if_neg h2,
          if_neg (by simp only [List.mem_cons, not_or]; exact ⟨hk, h2⟩)]
        rfl

/-- `addProb` keeps the keys duplicate-free. -/
theorem nodup_keysOf_addProb (l : List (Nat × ℚ)) (k : Nat) (p : ℚ)
    (h : (keysOf l).Nodup) : (keysOf (addProb l k p)).Nodup := by
  rw [keysOf_addProb]
  by_cases h2 : k ∈ keysOf l
  · rwa [if_pos h2]
  · rw [if_neg h2]
    simp only [List.nodup_append, List.nodup_cons, List.not_mem_nil,
      not_false_iff, List.nodup_nil, and_true, true_and]
    exact ⟨h, by simpa [List.disjoint_singleton] using h2⟩

/-- Folding `addProb` with weight `c` over a candidate list raises key
`k`'s probability by `c` times the number of candidates with id `k`. -/
theorem lprob_foldl_addProb (outs : List SkinRec) (c : ℚ)
    (acc : List (Nat × ℚ)) (k : Nat) :
    lprob (outs.foldl (fun a t => addProb a t.id c) acc) k =
      lprob acc k + c * (outs.countP (fun t => t.id == k)) := by
  induction outs generalizing acc with
  | nil => simp
  | cons o os ih =>
    rw [List.foldl_cons, ih, lprob_addProb, List.countP_cons]
    by_cases h : k = o.id
    · subst h
      simp only [beq_self_eq_true, if_true, if_pos rfl]
      push_cast
      ring
    · have hb : (o.id == k) = false := by
        simp only [beq_eq_false_iff_ne, ne_eq]
        exact fun hh => h hh.symm
      simp only [hb, if_neg h, if_false, add_zero]
      push_cast
      ring

/-- Folding `addProb` keeps the keys duplicate-free. -/
theorem nodup_keysOf_foldl (outs : List SkinRec) (c : ℚ)
    (acc : List (Nat × ℚ)) (h : (keysOf acc).Nodup) :
    (keysOf (outs.foldl (fun a t => addProb a t.id c) acc)).Nodup := by
  induction outs generalizing acc with
  | nil => exact h
  | cons o os ih => exact ih _ (nodup_keysOf_addProb _ _ _ h)

/-- `addProb` raises the total probability by exactly `p`. -/
theorem totalProb_addProb (l : List (Nat × ℚ)) (k : Nat) (p : ℚ) :
    totalProb (addProb l k p) = totalProb l + p := by
  induction l with
  | nil => simp [addProb, totalProb]
  | cons hd tl ih =>
    obtain ⟨k₁, p₁⟩ := hd
    by_cases h1 : k₁ = k
    · subst h1
      simp only [addProb, eq_self_iff_true, if_true, totalProb, List.map_cons,
        List.sum_cons]
      ring
    · simp only [addProb, if_neg h1, totalProb, List.map_cons, List.sum_cons]
      have ih' := ih
      simp only [totalProb] at ih'
      rw [ih']
      ring

/-- Folding `addProb` with weight `c` over a candidate list raises the
total probability by `c` times the candidate count. -/
theorem totalProb_foldl_addProb (outs : List SkinRec) (c : ℚ)
    (acc : List (Nat × ℚ)) :
    totalProb (outs.foldl (fun a t => addProb a t.id c) acc) =
      totalProb acc + c * outs.length := by
  induction outs generalizing acc with
  | nil => simp
  | cons o os ih =>
    rw [List.foldl_cons, ih, totalProb_addProb, List.length_cons]
    push_cast
    ring

/-- A key is absent from the dict exactly when `lookup` yields `none`. -/
theorem lookup_eq_none_iff (l : List (Nat × ℚ)) (k : Nat) :
    l.lookup k = none ↔ k ∉ keysOf l := by
  induction l with
  | nil => simp [keysOf]
  | cons hd tl ih =>
    obtain ⟨k₁, p₁⟩ := hd
    rw [lookup_cons_if]
    by_cases h : k = k₁ <;> simp [keysOf, h, ih]

/-- Over duplicate-free keys, `lookup` agrees with membership. -/
theorem lookup_eq_some_iff_mem (l : List (Nat × ℚ)) (k : Nat) (v : ℚ)
    (hnd : (keysOf l).Nodup) : l.lookup k = some v ↔ (k, v) ∈ l := by
  induction l with
  | nil => simp
  | cons hd tl ih =>
    obtain ⟨k₁, p₁⟩ := hd
    have hnd2 : (k₁ :: keysOf tl).Nodup := hnd
    have hk₁ : k₁ ∉ keysOf tl := (List.nodup_cons.mp hnd2).1
    have hnd' : (keysOf tl).Nodup := (List.nodup_cons.mp hnd2).2
    rw [lookup_cons_if, List.mem_cons]
    by_cases h : k = k₁
    · subst h
      rw [if_pos rfl]
      constructor
      · intro hv
        have hp : p₁ = v := by injection hv
        subst hp
        exact Or.inl rfl
      · rintro (hv | hmem)
        · have hp : v = p₁ := congrArg Prod.snd hv
          rw [hp]
        · exact absurd (List.mem_map_of_mem Prod.fst hmem) hk₁
    · rw [if_neg h, ih hnd']
      constructor
      · exact Or.inr
      · rintro (hv | hmem)
        · exact absurd (congrArg Prod.fst hv) h
        · exact hmem

/-- Over duplicate-free keys, per-key probabilities are invariant under
permutation (in particular under the final sort). -/
theorem lprob_eq_of_perm (l l' : List (Nat × ℚ)) (hperm : l.Perm l')
    (hnd : (keysOf l).Nodup) (k : Nat) : lprob l k = lprob l' k := by
  have hnd' : (keysOf l').Nodup := ((hperm.map Prod.fst).nodup_iff).mp hnd
  unfold lprob
  cases hv : l'.lookup k with
  | some v =>
    rw [(lookup_eq_some_iff_mem l k v hnd).mpr
      (hperm.mem_iff.mpr ((lookup_eq_some_iff_mem l' k v hnd').mp hv))]
  | none =>
    have hnk : k ∉ keysOf l' := (lookup_eq_none_iff l' k).mp hv
    rw [(lookup_eq_none_iff l k).mpr
      (fun hm => hnk ((hperm.map Prod.fst).mem_iff.mp hm))]

/-- The total probability is invariant under permutation. -/
theorem totalProb_eq_of_perm (l l' : List (Nat × ℚ)) (hperm : l.Perm l') :
    totalProb l = totalProb l' :=
  (hperm.map Prod.snd).sum_eq

/-- The accumulation loop adds, on every key, exactly the sum of the
claimed per-slot contributions of the processed items. -/
theorem lprob_accumulate (catalog : Catalog) (n : Nat) (items : List SkinRec)
    (acc res : List (Nat × ℚ)) (h : accumulate catalog n items acc = .ok res)
    (k : Nat) :
    lprob res k = lprob acc k +
      (items.map (fun s => spec_slot_contribution catalog n s k)).sum := by
  induction items generalizing acc with
  | nil =>
    simp only [accumulate] at h
    injection h with h
    subst h
    simp
  | cons s rest ih =>
    cases hgt : get_tradeups catalog s with
    | error e =>
      simp only [accumulate, hgt] at h
      exact absurd h (by simp)
    | ok outs =>
      cases outs with
      | nil =>
        simp only [accumulate, hgt] at h
        rw [ih _ h, List.map_cons, List.sum_cons]
        have hs : spec_slot_contribution catalog n s k = 0 := by
          simp [spec_slot_contribution, hgt]
        rw [hs]
        ring
      | cons o os =>
        simp only [accumulate, hgt] at h
        rw [ih _ h, lprob_foldl_addProb, List.map_cons, List.sum_cons]
        have hs : spec_slot_contribution catalog n s k =
            (((o :: os).countP (fun t => t.id == k)) : ℚ) *
              ((1 / (n : ℚ)) * (1 / ((o :: os).length : ℚ))) := by
          simp [spec_slot_contribution, hgt]
        rw [hs]
        ring

/-- The accumulation loop raises the total probability by `1/n` for every
processed item that has at least one candidate output. -/
theorem totalProb_accumulate (catalog : Catalog) (n : Nat)
    (items : List SkinRec) (acc res : List (Nat × ℚ))
    (h : accumulate catalog n items acc = .ok res) :
    totalProb res = totalProb acc +
      ((items.countP (has_candidates catalog)) : ℚ) * (1 / n) := by
  induction items generalizing acc with
  | nil =>
    simp only [accumulate] at h
    injection h with h
    subst h
    simp
  | cons s rest ih =>
    cases hgt : get_tradeups catalog s with
    | error e =>
      simp only [accumulate, hgt] at h
      exact absurd h (by simp)
    | ok outs =>
      cases outs with
      | nil =>
        simp only [accumulate, hgt] at h
        rw [ih _ h, List.countP_cons]
        have hc : has_candidates catalog s = false := by
          simp [has_candidates, hgt]
        rw [hc]
        simp
      | cons o os =>
        simp only [accumulate, hgt] at h
        rw [ih _ h, totalProb_foldl_addProb, List.countP_cons]
        have hc : has_candidates catalog s = true := by
          simp [has_candidates, hgt]
        have hlen : ((o :: os).length : ℚ) ≠ 0 := by
          rw [List.length_cons]
          exact_mod_cast Nat.succ_ne_zero os.length
        have key : (1 / (n : ℚ)) * (1 / ((o :: os).length : ℚ)) *
            ((o :: os).length : ℚ) = 1 / (n : ℚ) := by
          rw [mul_assoc, one_div ((o :: os).length : ℚ),
            inv_mul_cancel₀ hlen, mul_one]
        rw [key, hc]
        simp only [if_true]
        push_cast
        ring

/-- The accumulation loop keeps the outcome keys duplicate-free. -/
theorem nodup_keysOf_accumulate (catalog : Catalog) (n : Nat)
    (items : List SkinRec) (acc res : List (Nat × ℚ))
    (h : accumulate catalog n items acc = .ok res)
    (hnd : (keysOf acc).Nodup) : (keysOf res).Nodup := by
  induction items generalizing acc with
  | nil =>
    simp only [accumulate] at h
    injection h with h
    subst h
    exact hnd
  | cons s rest ih =>
    cases hgt : get_tradeups catalog s with
    | error e =>
      simp only [accumulate, hgt] at h
      exact absurd h (by simp)
    | ok outs =>
      cases outs with
      | nil =>
        simp only [accumulate, hgt] at h
        exact ih _ h hnd
      | cons o os =>
        simp only [accumulate, hgt] at h
        exact ih _ h (nodup_keysOf_foldl _ _ _ hnd)

/-- Inverting a successful `get_tradeup_outcomes` on a nonempty input:
the accumulation loop succeeded and the result is its stable sort. -/
theorem get_tradeup_outcomes_ok_inversion (catalog : Catalog)
    (first : SkinRec) (rest : List SkinRec) (res : List (Nat × ℚ))
    (h : get_tradeup_outcomes catalog (first :: rest) = .ok res) :
    ∃ acc, accumulate catalog (first :: rest).length (first :: rest) [] = .ok acc ∧
      res = acc.mergeSort (fun a b => decide (b.2 ≤ a.2)) := by
  rw [get_tradeup_outcomes_cons] at h
  by_cases h1 : ((first :: rest).any fun s => s.rarity != first.rarity) = true
  · rw [if_pos h1] at h
    exact absurd h (by simp)
  · rw [if_neg h1] at h
    by_cases h2 : (first :: rest).length ≠ (if first.rarity = "Covert" then 5 else 10)
    · rw [if_pos h2] at h
      exact absurd h (by simp)
    · rw [if_neg h2] at h
      cases hacc : accumulate catalog (first :: rest).length (first :: rest) [] with
      | error e =>
        rw [hacc] at h
        exact absurd h (by simp)
      | ok acc =>
        rw [hacc] at h
        injection h with h
        exact ⟨acc, rfl, h.symm⟩

end CSBackend

open CSBackend

/-- C10: `get_tradeup_outcomes` on an empty input list returns an empty
outcome list without raising, although an empty list meets neither count
requirement: the `if not items: return []` guard runs before validation. -/
theorem c10_empty_input_ok (catalog : Catalog) :
    get_tradeup_outcomes catalog [] = .ok [] := rfl

/-- C5: the rarity ladder's `next` reaches "Extraordinary" from
"Consumer Grade" in exactly 6 steps and fails on the 7th; it fails on
"Extraordinary" and on "Contraband"; and it is strictly monotonic and
cycle-free: every successful step moves from ladder index `i` to index
`i + 1`. -/
theorem c5_rarity_ladder :
    iter_next 6 "Consumer Grade" = some "Extraordinary" ∧
    iter_next 7 "Consumer Grade" = none ∧
    next_rarity "Extraordinary" = none ∧
    next_rarity "Contraband" = none ∧
    ∀ r s : String, next_rarity r = some s →
      ∃ i, rarity_order.indexOf? r = some i ∧
        rarity_order.indexOf? s = some (i + 1) := by
  refine ⟨by decide, by decide, by decide, by decide, ?_⟩
  intro r s h
  have hr : r ∈ rarity_order := by
    by_contra hn
    have h0 : rarity_order.indexOf? r = none :=
      List.indexOf?_eq_none_iff.mpr (fun x hx hbeq => hn ((eq_of_beq hbeq) ▸ hx))
    unfold next_rarity at h
    rw [h0] at h
    exact Option.noConfusion h
  simp only [rarity_order, List.mem_cons, List.not_mem_nil, or_false] at hr
  rcases hr with rfl | rfl | rfl | rfl | rfl | rfl | rfl
  · rw [show next_rarity "Consumer Grade" = some "Industrial Grade" from by decide] at h
    cases h
    exact ⟨0, by decide, by decide⟩
  · rw [show next_rarity "Industrial Grade" = some "Mil-Spec Grade" from by decide] at h
    cases h
    exact ⟨1, by decide, by decide⟩
  · rw [show next_rarity "Mil-Spec Grade" = some "Restricted" from by decide] at h
    cases h
    exact ⟨2, by decide, by decide⟩
  · rw [show next_rarity "Restricted" = some "Classified" from by decide] at h
    cases h
    exact ⟨3, by decide, by decide⟩
  · rw [show next_rarity "Classified" = some "Covert" from by decide] at h
    cases h
    exact ⟨4, by decide, by decide⟩
  · rw [show next_rarity "Covert" = some "Extraordinary" from by decide] at h
    cases h
    exact ⟨5, by decide, by decide⟩
  · rw [show next_rarity "Extraordinary" = none from by decide] at h
    exact Option.noConfusion h

/-- Witness for C5 at a concrete step: "Classified" steps to "Covert",
moving from ladder index 4 to index 5. -/
theorem c5_rarity_ladder_witness :
    ∃ i, rarity_order.indexOf? "Classified" = some i ∧
      rarity_order.indexOf? "Covert" = some (i + 1) :=
  c5_rarity_ladder.2.2.2.2 "Classified" "Covert" (by decide)

/-- `filterMap id` over a replicated `some` is the replicated value. -/
theorem filterMap_id_replicate_some (n : Nat) (v : ℚ) :
    (List.replicate n (some v)).filterMap id = List.replicate n v := by
  induction n with
  | zero => rfl
  | succ k ih => simp [List.replicate_succ, ih]

/-- C6: the float remapper returns the `none` sentinel exactly when no
input float is set; otherwise it returns
`min + mean * (max - min)` where the mean ranges over exactly the set
floats; and with all `n > 0` inputs set to the same `v` it returns
`min + v * (max - min)` exactly. -/
theorem c6_float_remapper (inputFloats : List (Option ℚ)) (min_f max_f : ℚ) :
    (inputFloats.filterMap id = [] →
      calculate_output_float inputFloats min_f max_f = none) ∧
    (inputFloats.filterMap id ≠ [] →
      calculate_output_float inputFloats min_f max_f =
        some (min_f + ((inputFloats.filterMap id).sum /
          ((inputFloats.filterMap id).length : ℚ)) * (max_f - min_f))) ∧
    (∀ (v : ℚ) (n : Nat), 0 < n → inputFloats = List.replicate n (some v) →
      calculate_output_float inputFloats min_f max_f =
        some (min_f + v * (max_f - min_f))) := by
  refine ⟨?_, ?_, ?_⟩
  · intro h
    simp [calculate_output_float, h]
  · intro h
    simp [calculate_output_float, h]
  · rintro v n hn rfl
    have hrep := filterMap_id_replicate_some n v
    have hne : (List.replicate n v : List ℚ) ≠ [] := by
      cases n with
      | zero => omega
      | succ k => simp [List.replicate_succ]
    have hsum : (List.replicate n v).sum = (n : ℚ) * v := by
      simp [List.sum_replicate, nsmul_eq_mul]
    have hn0 : (n : ℚ) ≠ 0 := by
      exact_mod_cast Nat.pos_iff_ne_zero.mp hn
    simp only [calculate_output_float, hrep, hne, List.length_replicate, hsum,
      if_false]
    congr 2
    rw [mul_comm (n : ℚ) v, mul_div_assoc, div_self hn0, mul_one]

/-- Witness for C6: no set floats gives the sentinel; ten inputs all set to
1/2 remap into [0, 1] as exactly 1/2. -/
theorem c6_float_remapper_witness :
    calculate_output_float [none, none] 0 1 = none ∧
    calculate_output_float (List.replicate 10 (some (1/2))) 0 1 =
      some (0 + 1/2 * (1 - 0)) :=
  ⟨(c6_float_remapper [none, none] 0 1).1 rfl,
   (c6_float_remapper (List.replicate 10 (some (1/2))) 0 1).2.2 (1/2) 10
     (by norm_num) rfl⟩

/-- C3: on a nonempty input, `get_tradeup_outcomes` raises the mixed-rarity
error when the items do not all share one rarity, and the wrong-count error
when the count differs from the required size (5 for Covert, 10 for any
other rarity); in particular 10 Covert items are rejected, 5 Covert items
are accepted, 5 Classified items are rejected, and 10 Classified items are
accepted. -/
theorem c3_validation (catalog : Catalog) (items : List SkinRec)
    (first : SkinRec) (rest : List SkinRec) (h : items = first :: rest) :
    ((∃ s ∈ items, s.rarity ≠ first.rarity) →
        get_tradeup_outcomes catalog items = .error .mixedRarity) ∧
    ((∀ s ∈ items, s.rarity = first.rarity) →
      items.length ≠ (if first.rarity = "Covert" then 5 else 10) →
        get_tradeup_outcomes catalog items = .error .wrongCount) ∧
    ((∀ s ∈ items, s.rarity = "Covert") → items.length = 10 →
        get_tradeup_outcomes catalog items = .error .wrongCount) ∧
    ((∀ s ∈ items, s.rarity = "Covert") → items.length = 5 →
        ∃ l, get_tradeup_outcomes catalog items = .ok l) ∧
    ((∀ s ∈ items, s.rarity = "Classified") → items.length = 5 →
        get_tradeup_outcomes catalog items = .error .wrongCount) ∧
    ((∀ s ∈ items, s.rarity = "Classified") → items.length = 10 →
        ∃ l, get_tradeup_outcomes catalog items = .ok l) := by
  subst h
  have hfirst : first ∈ first :: rest := List.mem_cons_self first rest
  refine ⟨fun hmix => get_tradeup_outcomes_mixed catalog first rest hmix,
    fun hall hlen => get_tradeup_outcomes_wrongCount catalog first rest hall hlen,
    ?_, ?_, ?_, ?_⟩
  · intro hall hlen
    have hf : first.rarity = "Covert" := hall first hfirst
    refine get_tradeup_outcomes_wrongCount catalog first rest
      (fun s hs => (hall s hs).trans hf.symm) ?_
    rw [hlen, hf]
    decide
  · intro hall hlen
    have hf : first.rarity = "Covert" := hall first hfirst
    exact get_tradeup_outcomes_ok catalog first rest
      (fun s hs => (hall s hs).trans hf.symm)
      (by rw [hlen, hf]; decide)
      (by rw [hf]; decide)
  · intro hall hlen
    have hf : first.rarity = "Classified" := hall first hfirst
    refine get_tradeup_outcomes_wrongCount catalog first rest
      (fun s hs => (hall s hs).trans hf.symm) ?_
    rw [hlen, hf]
    decide
  · intro hall hlen
    have hf : first.rarity = "Classified" := hall first hfirst
    exact get_tradeup_outcomes_ok catalog first rest
      (fun s hs => (hall s hs).trans hf.symm)
      (by rw [hlen, hf]; decide)
      (by rw [hf]; decide)

/-- Witness for C3 at concrete inputs: 10 Covert items rejected, 5 Covert
accepted, 5 Classified rejected, 10 Classified accepted, and a mixed
Covert/Classified input rejected. -/
theorem c3_validation_witness :
    get_tradeup_outcomes [] (List.replicate 10 covRec) = .error .wrongCount ∧
    (∃ l, get_tradeup_outcomes [] (List.replicate 5 covRec) = .ok l) ∧
    get_tradeup_outcomes [] (List.replicate 5 clRec) = .error .wrongCount ∧
    (∃ l, get_tradeup_outcomes [] (List.replicate 10 clRec) = .ok l) ∧
    get_tradeup_outcomes [] [covRec, clRec] = .error .mixedRarity := by
  refine ⟨?_, ?_, ?_, ?_, ?_⟩
  · exact (c3_validation [] (List.replicate 10 covRec) covRec
      (List.replicate 9 covRec) rfl).2.2.1
      (fun s hs => by rw [List.eq_of_mem_replicate hs]; rfl) rfl
  · exact (c3_validation [] (List.replicate 5 covRec) covRec
      (List.replicate 4 covRec) rfl).2.2.2.1
      (fun s hs => by rw [List.eq_of_mem_replicate hs]; rfl) rfl
  · exact (c3_validation [] (List.replicate 5 clRec) clRec
      (List.replicate 4 clRec) rfl).2.2.2.2.1
      (fun s hs => by rw [List.eq_of_mem_replicate hs]; rfl) rfl
  · exact (c3_validation [] (List.replicate 10 clRec) clRec
      (List.replicate 9 clRec) rfl).2.2.2.2.2
      (fun s hs => by rw [List.eq_of_mem_replicate hs]; rfl) rfl
  · exact (c3_validation [] [covRec, clRec] covRec [clRec] rfl).1
      ⟨clRec, by simp, by decide⟩

/-- C8 counterexample: an input of 10 Extraordinary items passes both
validation checks and then raises the rarity-ladder error during candidate
enumeration — not the validation `InvalidInputError` (neither the
mixed-rarity nor the wrong-count error) the claim requires. -/
theorem c8_counterexample :
    get_tradeup_outcomes [exRec] (List.replicate 10 exRec) = .error .ladderError ∧
    get_tradeup_outcomes [exRec] (List.replicate 10 exRec) ≠ .error .mixedRarity ∧
    get_tradeup_outcomes [exRec] (List.replicate 10 exRec) ≠ .error .wrongCount := by
  have h : get_tradeup_outcomes [exRec] (List.replicate 10 exRec) =
      .error .ladderError := by
    rw [show List.replicate 10 exRec = exRec :: List.replicate 9 exRec from rfl,
      get_tradeup_outcomes_cons,
      any_ne_rarity_false exRec (List.replicate 9 exRec)
        (fun s hs => by
          rw [List.eq_of_mem_replicate (show s ∈ List.replicate 10 exRec from hs)])]
    simp only [Bool.false_eq_true, if_false]
    rw [if_neg (by decide),
      accumulate_ladderError [exRec] _ exRec (List.replicate 9 exRec) [] (by decide)]
  exact ⟨h, by rw [h]; simp, by rw [h]; simp⟩

/-- C8 amended: a size-passing input all of one terminal or non-laddered
rarity (Extraordinary or Contraband) is not rejected at validation; it
passes both validation checks and the computation then fails during
candidate enumeration with the rarity-ladder error (it never silently
returns an empty outcome set). -/
theorem c8_terminal_enumeration_error (catalog : Catalog)
    (items : List SkinRec) (first : SkinRec) (rest : List SkinRec)
    (h : items = first :: rest)
    (hall : ∀ s ∈ items, s.rarity = first.rarity)
    (hterm : first.rarity = "Extraordinary" ∨ first.rarity = "Contraband")
    (hlen : items.length = 10) :
    get_tradeup_outcomes catalog items = .error .ladderError := by
  subst h
  have hnone : next_rarity first.rarity = none := by
    rcases hterm with hf | hf <;> rw [hf] <;> decide
  have hncov : ¬(first.rarity = "Covert") := by
    rcases hterm with hf | hf <;> rw [hf] <;> decide
  have hlen' : (first :: rest).length = (if first.rarity = "Covert" then 5 else 10) := by
    rw [if_neg hncov, hlen]
  rw [get_tradeup_outcomes_cons, any_ne_rarity_false first rest hall]
  simp only [Bool.false_eq_true, if_false]
  rw [if_neg (not_ne_iff.mpr hlen'),
    accumulate_ladderError catalog _ first rest [] hnone]

/-- Witness for C8's amended claim: 10 Contraband items fail with the
ladder error during enumeration. -/
theorem c8_terminal_enumeration_error_witness :
    get_tradeup_outcomes [] (List.replicate 10 cbRec) = .error .ladderError :=
  c8_terminal_enumeration_error [] (List.replicate 10 cbRec) cbRec
    (List.replicate 9 cbRec) rfl
    (fun s hs => by rw [List.eq_of_mem_replicate hs]) (Or.inr rfl) rfl

/-- C1: for every input accepted by `get_tradeup_outcomes`, the probability
reported for each output id `k` is the accumulation, over the input slots,
of the claimed per-slot contribution: `(1/N) * (1/M)` for each occurrence
of `k` among that slot's `M` same-collection next-tier candidates (`N` the
input size), contributions being summed per distinct output id. -/
theorem c1_outcome_probabilities (catalog : Catalog) (items : List SkinRec)
    (res : List (Nat × ℚ)) (h : get_tradeup_outcomes catalog items = .ok res)
    (k : Nat) :
    lprob res k =
      (items.map (fun s => spec_slot_contribution catalog items.length s k)).sum := by
  cases items with
  | nil =>
    simp only [get_tradeup_outcomes] at h
    injection h with h
    subst h
    simp [lprob]
  | cons first rest =>
    obtain ⟨acc, hacc, hres⟩ :=
      get_tradeup_outcomes_ok_inversion catalog first rest res h
    have hnd : (keysOf acc).Nodup :=
      nodup_keysOf_accumulate catalog (first :: rest).length (first :: rest) [] acc
        hacc (by simp [keysOf])
    have hperm : acc.Perm (acc.mergeSort (fun a b => decide (b.2 ≤ a.2))) :=
      (List.mergeSort_perm acc _).symm
    have hlk := lprob_eq_of_perm acc _ hperm hnd k
    rw [hres, ← hlk]
    have hac := lprob_accumulate catalog (first :: rest).length (first :: rest) [] acc
      hacc k
    simpa [lprob] using hac

/-- C2: for every accepted (nonempty) input, the reported probabilities sum
to at most 1, and to exactly 1 iff every input item has at least one
same-collection next-tier candidate (a nonempty `get_tradeups` list);
items without candidates contribute no probability mass, which is dropped,
not redistributed. -/
theorem c2_total_probability (catalog : Catalog) (items : List SkinRec)
    (first : SkinRec) (rest : List SkinRec) (hne : items = first :: rest)
    (res : List (Nat × ℚ)) (h : get_tradeup_outcomes catalog items = .ok res) :
    totalProb res ≤ 1 ∧
    (totalProb res = 1 ↔ ∀ s ∈ items, has_candidates catalog s = true) := by
  subst hne
  obtain ⟨acc, hacc, hres⟩ :=
    get_tradeup_outcomes_ok_inversion catalog first rest res h
  have hperm : (acc.mergeSort (fun a b => decide (b.2 ≤ a.2))).Perm acc :=
    List.mergeSort_perm acc _
  have hn : (0 : ℚ) < ((first :: rest).length : ℚ) := by
    rw [List.length_cons]
    exact_mod_cast Nat.succ_pos rest.length
  have htot : totalProb res =
      ((List.countP (has_candidates catalog) (first :: rest) : ℚ)) /
        ((first :: rest).length : ℚ) := by
    rw [hres, totalProb_eq_of_perm _ acc hperm]
    have h2 := totalProb_accumulate catalog (first :: rest).length (first :: rest)
      [] acc hacc
    rw [h2]
    simp [totalProb, mul_one_div, div_eq_mul_inv]
  constructor
  · rw [htot, div_le_one hn]
    exact_mod_cast List.countP_le_length _
  · rw [htot, div_eq_one_iff_eq hn.ne']
    constructor
    · intro hh
      have hcl : List.countP (has_candidates catalog) (first :: rest) =
          (first :: rest).length := by
        exact_mod_cast hh
      exact List.countP_eq_length.mp hcl
    · intro hall
      exact_mod_cast congrArg (fun m : Nat => (m : ℚ))
        (List.countP_eq_length.mpr hall)

/-- C4 amended: for every accepted input the outcome list is sorted in
descending order of accumulated probability, and the sort is stable: any
two entries of the accumulation dict whose probabilities tie (or are
already descending) keep their relative accumulation order in the result.
No identifier-ascending tie-break is applied (see the counterexample). -/
theorem c4_sorted_descending_stable (catalog : Catalog) (items : List SkinRec)
    (res : List (Nat × ℚ)) (h : get_tradeup_outcomes catalog items = .ok res) :
    res.Pairwise (fun a b => b.2 ≤ a.2) ∧
    (∀ acc, accumulate catalog items.length items [] = .ok acc →
      ∀ a b : Nat × ℚ, List.Sublist [a, b] acc → b.2 ≤ a.2 →
        List.Sublist [a, b] res) := by
  have trans : ∀ a b c : Nat × ℚ, decide (b.2 ≤ a.2) = true →
      decide (c.2 ≤ b.2) = true → decide (c.2 ≤ a.2) = true := by
    intro a b c hab hbc
    simp only [decide_eq_true_eq] at hab hbc ⊢
    exact le_trans hbc hab
  have total : ∀ a b : Nat × ℚ,
      (decide (b.2 ≤ a.2) || decide (a.2 ≤ b.2)) = true := by
    intro a b
    simp only [Bool.or_eq_true, decide_eq_true_eq]
    exact le_total b.2 a.2
  cases items with
  | nil =>
    simp only [get_tradeup_outcomes] at h
    injection h with h
    subst h
    refine ⟨List.Pairwise.nil, ?_⟩
    intro acc hacc a b hab _
    simp only [accumulate] at hacc
    injection hacc with hacc
    subst hacc
    exact absurd hab (by simp)
  | cons first rest =>
    obtain ⟨acc₀, hacc₀, hres⟩ :=
      get_tradeup_outcomes_ok_inversion catalog first rest res h
    subst hres
    constructor
    · exact (List.sorted_mergeSort trans total acc₀).imp
        (fun hab => by simpa using hab)
    · intro acc hacc a b hab hba
      have heq : acc = acc₀ := by
        rw [hacc] at hacc₀
        exact Except.ok.inj hacc₀
      subst heq
      exact List.sublist_mergeSort trans total
        (by simp [List.pairwise_cons, hba]) hab

/-- `alphaMil1`'s candidate outputs in `catalogAB`: the two Restricted
"Alpha" records, in catalog row order. -/
theorem tradeups_alphaMil1 :
    get_tradeups catalogAB alphaMil1 = .ok [alphaRes1, alphaRes2] := rfl

/-- `betaMil` has no candidate outputs in `catalogAB`. -/
theorem tradeups_betaMil : get_tradeups catalogAB betaMil = .ok [] := rfl

/-- `gammaMil`'s candidate outputs in `catalogG`, in catalog row order:
id 9 before id 8. -/
theorem tradeups_gammaMil :
    get_tradeups catalogG gammaMil = .ok [gammaRes9, gammaRes8] := rfl

/-- One accumulation step over an `alphaMil1` slot adds 1/20 to ids 4 and 5. -/
theorem accum_step_alpha (rest : List SkinRec) (acc : List (Nat × ℚ)) :
    accumulate catalogAB 10 (alphaMil1 :: rest) acc =
      accumulate catalogAB 10 rest (addProb (addProb acc 4 (1/20)) 5 (1/20)) := by
  simp only [accumulate, tradeups_alphaMil1, List.foldl_cons, List.foldl_nil]
  norm_num [alphaRes1, alphaRes2]

/-- One accumulation step over a `betaMil` slot adds nothing. -/
theorem accum_step_beta (rest : List SkinRec) (acc : List (Nat × ℚ)) :
    accumulate catalogAB 10 (betaMil :: rest) acc =
      accumulate catalogAB 10 rest acc := by
  simp only [accumulate, tradeups_betaMil]

/-- One accumulation step over a `gammaMil` slot adds 1/20 to ids 9 and 8,
in that insertion order. -/
theorem accum_step_gamma (rest : List SkinRec) (acc : List (Nat × ℚ)) :
    accumulate catalogG 10 (gammaMil :: rest) acc =
      accumulate catalogG 10 rest (addProb (addProb acc 9 (1/20)) 8 (1/20)) := by
  simp only [accumulate, tradeups_gammaMil, List.foldl_cons, List.foldl_nil]
  norm_num [gammaRes9, gammaRes8]

/-- Ten `alphaMil1` slots accumulate to probability 1/2 on each of ids 4, 5. -/
theorem accum_tenAlpha :
    accumulate catalogAB 10 (List.replicate 10 alphaMil1) [] =
      .ok [(4, 1/2), (5, 1/2)] := by
  rw [show List.replicate 10 alphaMil1 = [alphaMil1, alphaMil1, alphaMil1,
    alphaMil1, alphaMil1, alphaMil1, alphaMil1, alphaMil1, alphaMil1, alphaMil1]
    from rfl]
  iterate 10
    rw [accum_step_alpha]
    norm_num [addProb]
  rfl

/-- One `alphaMil1` slot plus nine `betaMil` slots accumulate to 1/20 on
each of ids 4, 5. -/
theorem accum_mix :
    accumulate catalogAB 10 (alphaMil1 :: List.replicate 9 betaMil) [] =
      .ok [(4, 1/20), (5, 1/20)] := by
  rw [show alphaMil1 :: List.replicate 9 betaMil = [alphaMil1, betaMil, betaMil,
    betaMil, betaMil, betaMil, betaMil, betaMil, betaMil, betaMil] from rfl]
  rw [accum_step_alpha]
  norm_num [addProb]
  iterate 9 rw [accum_step_beta]
  rfl

/-- Ten `gammaMil` slots accumulate to 1/2 on each of ids 9, 8, inserted in
that order. -/
theorem accum_tenGamma :
    accumulate catalogG 10 (List.replicate 10 gammaMil) [] =
      .ok [(9, 1/2), (8, 1/2)] := by
  rw [show List.replicate 10 gammaMil = [gammaMil, gammaMil, gammaMil,
    gammaMil, gammaMil, gammaMil, gammaMil, gammaMil, gammaMil, gammaMil]
    from rfl]
  iterate 10
    rw [accum_step_gamma]
    norm_num [addProb]
  rfl

/-- The full outcome computation for ten `alphaMil1` inputs. -/
theorem outcomes_tenAlpha :
    get_tradeup_outcomes catalogAB (List.replicate 10 alphaMil1) =
      .ok [(4, 1/2), (5, 1/2)] := by
  rw [show List.replicate 10 alphaMil1 = alphaMil1 :: List.replicate 9 alphaMil1
      from rfl,
    get_tradeup_outcomes_cons,
    any_ne_rarity_false alphaMil1 (List.replicate 9 alphaMil1) (by decide)]
  simp only [Bool.false_eq_true, if_false]
  rw [if_neg (by decide)]
  have hacc : accumulate catalogAB (alphaMil1 :: List.replicate 9 alphaMil1).length
      (alphaMil1 :: List.replicate 9 alphaMil1) [] = .ok [(4, 1/2), (5, 1/2)] :=
    accum_tenAlpha
  simp only [hacc]
  rw [List.mergeSort_of_sorted (by norm_num)]

/-- The full outcome computation for one `alphaMil1` plus nine `betaMil`
inputs. -/
theorem outcomes_mix :
    get_tradeup_outcomes catalogAB (alphaMil1 :: List.replicate 9 betaMil) =
      .ok [(4, 1/20), (5, 1/20)] := by
  rw [get_tradeup_outcomes_cons,
    any_ne_rarity_false alphaMil1 (List.replicate 9 betaMil) (by decide)]
  simp only [Bool.false_eq_true, if_false]
  rw [if_neg (by decide)]
  have hacc : accumulate catalogAB (alphaMil1 :: List.replicate 9 betaMil).length
      (alphaMil1 :: List.replicate 9 betaMil) [] = .ok [(4, 1/20), (5, 1/20)] :=
    accum_mix
  simp only [hacc]
  rw [List.mergeSort_of_sorted (by norm_num)]

/-- The full outcome computation for ten `gammaMil` inputs: equal
probabilities are reported in insertion order, id 9 before id 8. -/
theorem outcomes_tenGamma :
    get_tradeup_outcomes catalogG (List.replicate 10 gammaMil) =
      .ok [(9, 1/2), (8, 1/2)] := by
  rw [show List.replicate 10 gammaMil = gammaMil :: List.replicate 9 gammaMil
      from rfl,
    get_tradeup_outcomes_cons,
    any_ne_rarity_false gammaMil (List.replicate 9 gammaMil) (by decide)]
  simp only [Bool.false_eq_true, if_false]
  rw [if_neg (by decide)]
  have hacc : accumulate catalogG (gammaMil :: List.replicate 9 gammaMil).length
      (gammaMil :: List.replicate 9 gammaMil) [] = .ok [(9, 1/2), (8, 1/2)] :=
    accum_tenGamma
  simp only [hacc]
  rw [List.mergeSort_of_sorted (by norm_num)]

/-- Witness for C1: over `catalogAB` (collection "Alpha" has exactly two
Restricted records, ids 4 and 5), ten "Alpha" Mil-Spec inputs yield exactly
two outcomes with probability 1/2 each, summing to 1, and the reported
probability of id 4 equals the claimed per-slot accumulation. -/
theorem c1_outcome_probabilities_witness :
    get_tradeup_outcomes catalogAB (List.replicate 10 alphaMil1) =
      .ok [(4, 1/2), (5, 1/2)] ∧
    lprob [(4, (1 : ℚ)/2), (5, 1/2)] 4 =
      ((List.replicate 10 alphaMil1).map
        (fun s => spec_slot_contribution catalogAB
          (List.replicate 10 alphaMil1).length s 4)).sum ∧
    lprob [(4, (1 : ℚ)/2), (5, 1/2)] 4 = 1/2 ∧
    lprob [(4, (1 : ℚ)/2), (5, 1/2)] 5 = 1/2 ∧
    totalProb [(4, (1 : ℚ)/2), (5, 1/2)] = 1 :=
  ⟨outcomes_tenAlpha,
   c1_outcome_probabilities catalogAB (List.replicate 10 alphaMil1) _
     outcomes_tenAlpha 4,
   by norm_num [lprob, lookup_cons_if],
   by norm_num [lprob, lookup_cons_if],
   by norm_num [totalProb]⟩

/-- Witness for C2: one "Alpha" item (2 candidates) plus nine "Beta" items
(0 candidates) yield exactly two outcomes of 1/20 each, total 1/10: at most
1, and not 1 because not every input has candidates. -/
theorem c2_total_probability_witness :
    get_tradeup_outcomes catalogAB (alphaMil1 :: List.replicate 9 betaMil) =
      .ok [(4, 1/20), (5, 1/20)] ∧
    totalProb [(4, (1 : ℚ)/20), (5, 1/20)] ≤ 1 ∧
    totalProb [(4, (1 : ℚ)/20), (5, 1/20)] = 1/10 ∧
    ¬ (∀ s ∈ alphaMil1 :: List.replicate 9 betaMil,
        has_candidates catalogAB s = true) ∧
    totalProb [(4, (1 : ℚ)/20), (5, 1/20)] ≠ 1 := by
  have h := outcomes_mix
  have hc2 := c2_total_probability catalogAB
    (alphaMil1 :: List.replicate 9 betaMil) alphaMil1 (List.replicate 9 betaMil)
    rfl [(4, 1/20), (5, 1/20)] h
  have hnall : ¬ (∀ s ∈ alphaMil1 :: List.replicate 9 betaMil,
      has_candidates catalogAB s = true) := by decide
  exact ⟨h, hc2.1, by norm_num [totalProb], hnall, fun hh => hnall (hc2.2.mp hh)⟩

/-- C4 counterexample: over `catalogG`, whose two Restricted "Gamma"
records appear in the catalog with id 9 before id 8, ten "Gamma" Mil-Spec
inputs produce two equal-probability outcomes ordered id 9 then id 8 — the
claimed identifier-ascending tie-break does not hold on the code. -/
theorem c4_counterexample :
    get_tradeup_outcomes catalogG (List.replicate 10 gammaMil) =
      .ok [(9, 1/2), (8, 1/2)] ∧
    ¬ List.Pairwise (fun a b : Nat × ℚ => a.2 > b.2 ∨ (a.2 = b.2 ∧ a.1 < b.1))
      [(9, (1 : ℚ)/2), (8, 1/2)] :=
  ⟨outcomes_tenGamma, by
    intro hp
    have hrel := List.rel_of_pairwise_cons hp (List.mem_singleton.mpr rfl)
    rcases hrel with hgt | ⟨-, hlt⟩
    · exact absurd hgt (by norm_num)
    · exact absurd hlt (by norm_num)⟩

/-- Witness for C4's amended claim: the tied outcomes of the `catalogG`
scenario are (weakly) descending in probability. -/
theorem c4_sorted_descending_stable_witness :
    List.Pairwise (fun a b : Nat × ℚ => b.2 ≤ a.2) [(9, (1 : ℚ)/2), (8, 1/2)] :=
  (c4_sorted_descending_stable catalogG (List.replicate 10 gammaMil) _
    outcomes_tenGamma).1

/-- Appending a fresh key at the end of a dict makes it found by `lookup`
when it was absent before. -/
theorem lookup_append_singleton {β : Type} (l : List (Nat × β)) (k : Nat)
    (v : β) (h : l.lookup k = none) : (l ++ [(k, v)]).lookup k = some v := by
  induction l with
  | nil => rw [List.nil_append, lookup_cons_if, if_pos rfl]
  | cons hd tl ih =>
    obtain ⟨k₁, v₁⟩ := hd
    rw [lookup_cons_if] at h
    rw [List.cons_append, lookup_cons_if]
    by_cases hk : k = k₁
    · rw [if_pos hk] at h
      exact absurd h (by simp)
    · rw [if_neg hk] at h
      rw [if_neg hk]
      exact ih h

/-- C7 counterexample: looking up a name absent from the catalog returns
the Python `None` sentinel (`.ok none`) — it does not raise the claimed
not-found error. -/
theorem c7_counterexample :
    get_skin_by_name catalogAB st0 "No Such Name" = .ok none ∧
    ∀ e, get_skin_by_name catalogAB st0 "No Such Name" ≠ .error e := by
  refine ⟨rfl, ?_⟩
  intro e h
  rw [show get_skin_by_name catalogAB st0 "No Such Name" = .ok none from rfl] at h
  exact Except.noConfusion h

/-- C7 amended: lookup by id raises the not-found error when the id is
neither cached nor in the catalog; lookup by name with no exactly-matching
record returns the `None` sentinel without raising; and a successful name
lookup implies some catalog record's name matches exactly (never fuzzy). -/
theorem c7_lookup_failures (catalog : Catalog) (st : BState) (item_id : Nat)
    (name : String) :
    (st.cache.lookup item_id = none → (∀ r ∈ catalog, r.id ≠ item_id) →
        get_skin catalog st item_id = .error .notFound) ∧
    ((∀ r ∈ catalog, r.name ≠ name) →
        get_skin_by_name catalog st name = .ok none) ∧
    (∀ p, get_skin_by_name catalog st name = .ok (some p) →
        ∃ r ∈ catalog, r.name = name) := by
  refine ⟨?_, ?_, ?_⟩
  · intro hc hid
    have hf : catalog.filter (fun r => r.id == item_id) = [] :=
      List.filter_eq_nil_iff.mpr (fun r hr => by simpa using hid r hr)
    simp only [get_skin, hc, skin_init, if_pos hf]
  · intro hname
    have hf : catalog.filter (fun r => r.name == name) = [] :=
      List.filter_eq_nil_iff.mpr (fun r hr => by simpa using hname r hr)
    simp only [get_skin_by_name, hf]
  · intro p hp
    cases hf : catalog.filter (fun r => r.name == name) with
    | nil =>
      simp only [get_skin_by_name, hf] at hp
      exact absurd hp (by simp)
    | cons r rs =>
      have hr : r ∈ catalog.filter (fun r => r.name == name) := by
        rw [hf]
        exact List.mem_cons_self r rs
      have hm := List.mem_filter.mp hr
      exact ⟨r, hm.1, by simpa using hm.2⟩

/-- Witness for C7's amended claim: an absent id raises, an absent name
returns the sentinel. -/
theorem c7_lookup_failures_witness :
    get_skin catalogAB st0 999 = .error .notFound ∧
    get_skin_by_name catalogAB st0 "Missing" = .ok none :=
  ⟨(c7_lookup_failures catalogAB st0 999 "Missing").1 rfl (by decide),
   (c7_lookup_failures catalogAB st0 999 "Missing").2.1 (by decide)⟩

/-- C9 counterexample: with `catalogAB` (record id 1 named "A-M1"), a first
`get_skin` lookup caches instance tag 0, but a subsequent `get_skin_by_name`
resolving to the same id allocates and returns a fresh instance tag 1 — not
the single cached instance the claim requires. -/
theorem c9_counterexample :
    get_skin catalogAB st0 1 = .ok (0, ⟨[(1, 0)], 1⟩) ∧
    get_skin_by_name catalogAB ⟨[(1, 0)], 1⟩ "A-M1" =
      .ok (some (1, ⟨[(1, 0)], 2⟩)) ∧
    (0 : Nat) ≠ 1 :=
  ⟨rfl, rfl, by decide⟩

/-- C9 amended: `get_skin` memoizes per id — after a lookup returns a tag
and state, looking the same id up again in that state returns the same tag
and the same state; `get_skin_by_name`, by contrast, allocates a fresh
instance tag on every successful call and leaves the cache untouched. -/
theorem c9_memoization (catalog : Catalog) (st : BState) (item_id : Nat)
    (name : String) :
    (∀ tag st', get_skin catalog st item_id = .ok (tag, st') →
        get_skin catalog st' item_id = .ok (tag, st')) ∧
    (∀ tag st', get_skin_by_name catalog st name = .ok (some (tag, st')) →
        tag = st.nextTag ∧ st'.cache = st.cache ∧
          st'.nextTag = st.nextTag + 1) := by
  constructor
  · intro tag st' h
    cases hc : st.cache.lookup item_id with
    | some t =>
      simp only [get_skin, hc] at h
      have hinj := Except.ok.inj h
      have htag : t = tag := congrArg Prod.fst hinj
      have hst : st = st' := congrArg Prod.snd hinj
      rw [← hst, ← htag]
      simp only [get_skin, hc]
    | none =>
      by_cases hf : catalog.filter (fun r => r.id == item_id) = []
      · simp only [get_skin, hc, skin_init, if_pos hf] at h
        exact absurd h (by simp)
      · simp only [get_skin, hc, skin_init, if_neg hf] at h
        have hinj := Except.ok.inj h
        have htag : st.nextTag = tag := congrArg Prod.fst hinj
        have h2 := congrArg Prod.snd hinj
        have hcache : st'.cache = st.cache ++ [(item_id, st.nextTag)] :=
          (congrArg BState.cache h2).symm
        have hlk : st'.cache.lookup item_id = some tag := by
          rw [hcache, ← htag]
          exact lookup_append_singleton st.cache item_id st.nextTag hc
        simp only [get_skin, hlk]
  · intro tag st' h
    cases hf : catalog.filter (fun r => r.name == name) with
    | nil =>
      simp only [get_skin_by_name, hf] at h
      exact absurd h (by simp)
    | cons r rs =>
      by_cases hf2 : catalog.filter (fun q => q.id == r.id) = []
      · simp only [get_skin_by_name, hf, skin_init, if_pos hf2] at h
        exact absurd h (by simp)
      · simp only [get_skin_by_name, hf, skin_init, if_neg hf2] at h
        have hinj := Option.some.inj (Except.ok.inj h)
        have htag : st.nextTag = tag := congrArg Prod.fst hinj
        have h2 := congrArg Prod.snd hinj
        exact ⟨htag.symm, (congrArg BState.cache h2).symm,
          (congrArg BState.nextTag h2).symm⟩

/-- Witness for C9's amended claim: a cached id 1 is returned unchanged on
re-lookup, and a by-name lookup from the same state allocates tag 1 (the
state's next fresh tag), leaving the cache as it was. -/
theorem c9_memoization_witness :
    get_skin catalogAB ⟨[(1, 0)], 1⟩ 1 = .ok (0, ⟨[(1, 0)], 1⟩) ∧
    ((1 : Nat) = (⟨[(1, 0)], 1⟩ : BState).nextTag ∧
      (⟨[(1, 0)], 2⟩ : BState).cache = (⟨[(1, 0)], 1⟩ : BState).cache ∧
      (⟨[(1, 0)], 2⟩ : BState).nextTag = (⟨[(1, 0)], 1⟩ : BState).nextTag + 1) :=
  ⟨(c9_memoization catalogAB st0 1 "A-M1").1 0 ⟨[(1, 0)], 1⟩ rfl,
   (c9_memoization catalogAB ⟨[(1, 0)], 1⟩ 1 "A-M1").2 1 ⟨[(1, 0)], 2⟩ rfl⟩
